import Mathlib

/-!
Shallow embedding of the CRDT logic of the collaborative-editor worker
(worker.go): the document model (`Element`, `CRDT`), the insert resolver
(`firstCRDTEntry`, `replacingFirstOp`, `samePlaceInsertCheck`,
`normalInsert`, `addToCRDT`), the local insert path (`prevIDExists`,
`addRight`), the merge path (`applyIncomingOp`, `ApplyIncomingOps`) and
the rendered walk (`getMessage`).  Go maps of pointers are modelled as
association lists; a `nil`-pointer dereference or a non-terminating loop
in the Go code is modelled as `none`.
-/

namespace CrdtWorker

/-- One atomic edit, mirroring the `Element` struct of worker.go. -/
structure Element where
  SessionID : String
  ClientID : String
  Deleted : Bool
  ID : String
  PrevID : String
  NextID : String
  Text : String
deriving DecidableEq, Repr

/-- Association list standing for Go's `map[string]*Element`. -/
abbrev Elems := List (String × Element)

/-- Map lookup, Go `crdt.Elements[k]`: a missing key gives `nil`, here `none`. -/
def lookupElem : Elems → String → Option Element
  | [], _ => none
  | (k2, v) :: rest, k => if k2 = k then some v else lookupElem rest k

/-- Map write, Go `crdt.Elements[k] = v`; it also models an in-place field
mutation of the element reached through the pointer stored at key `k`. -/
def setElem : Elems → String → Element → Elems
  | [], k, v => [(k, v)]
  | (k2, v2) :: rest, k, v =>
      if k2 = k then (k, v) :: rest else (k2, v2) :: setElem rest k v

/-- Document state, mirroring the `CRDT` struct of worker.go. -/
structure CRDT where
  Elements : Elems
  CrdtFirstID : String
  NextOpNumber : Nat
deriving DecidableEq, Repr

/-- Worker state relevant to the CRDT logic: `workerID`, the per-session
document map `crdt`, and the local-operation buffer `localOps`. -/
structure Worker where
  workerID : Nat
  crdt : List (String × CRDT)
  localOps : List Element
deriving DecidableEq, Repr

/-- Session-map lookup, Go `w.crdt[sessionID]`. -/
def lookupCRDT : List (String × CRDT) → String → Option CRDT
  | [], _ => none
  | (k2, v) :: rest, k => if k2 = k then some v else lookupCRDT rest k

/-- Session-map write, Go `w.crdt[sessionID] = c` (and in-place mutation of
the CRDT reached through the stored pointer). -/
def setCRDT : List (String × CRDT) → String → CRDT → List (String × CRDT)
  | [], k, v => [(k, v)]
  | (k2, v2) :: rest, k, v =>
      if k2 = k then (k, v) :: rest else (k2, v2) :: setCRDT rest k v

/-- The sentinel anchor `INITIAL_ID` of worker.go. -/
def INITIAL_ID : String := "12345"

/-- Decimal digit characters of a natural number, most significant first;
the fuel argument drives the digit-extraction loop of Go's `strconv.Itoa`. -/
def itoaCore : Nat → Nat → List Char
  | 0, _ => []
  | fuel + 1, n =>
      if n = 0 then [] else itoaCore fuel (n / 10) ++ [Nat.digitChar (n % 10)]

/-- Go's `strconv.Itoa` on a natural number (the worker id and the
per-document counter are non-negative). -/
def itoa (n : Nat) : String :=
  if n = 0 then "0" else String.mk (itoaCore (n + 1) n)

/-- Value of a digit string, read left to right. -/
def atoiChars (cs : List Char) : Nat :=
  cs.foldl (fun a c => a * 10 + (c.toNat - 48)) 0

/-- Go's `strconv.Atoi` with its error ignored, exactly as the source
ignores it: a plain decimal numeral parses to its value, anything else
(including the empty string) yields 0. -/
def atoi (s : String) : Nat :=
  if s.data ≠ [] ∧ s.data.all (fun c => c.isDigit) then atoiChars s.data else 0

/-- Identifier minting of `addRight`:
`strconv.Itoa(crdt.NextOpNumber) + strconv.Itoa(w.workerID)`. -/
def mintOpID (counter workerID : Nat) : String :=
  itoa counter ++ itoa workerID

/-- Go `firstCRDTEntry`: the first insert into an empty document claims
`CrdtFirstID`. -/
def firstCRDTEntry (opID : String) (crdt : CRDT) : Bool × CRDT :=
  if crdt.Elements.length ≤ 0 then (true, { crdt with CrdtFirstID := opID })
  else (false, crdt)

/-- Go `replacingFirstOp`: an insert whose reference is the sentinel anchor
is spliced in before the current first element.  `none` models the nil
dereference of `crdt.Elements[crdt.CrdtFirstID]` when the first id is not
a key. -/
def replacingFirstOp (newElement : Element) (prevID opID : String) (crdt : CRDT) :
    Option (Bool × Element × CRDT) :=
  if prevID = INITIAL_ID then
    match lookupElem crdt.Elements crdt.CrdtFirstID with
    | none => none
    | some firstOp =>
        some (true, { newElement with NextID := crdt.CrdtFirstID },
          { crdt with
              Elements := setElem crdt.Elements crdt.CrdtFirstID
                { firstOp with PrevID := opID },
              CrdtFirstID := opID })
  else some (false, newElement, crdt)

/-- Loop body of Go `samePlaceInsertCheck`.  The fuel argument models the
unbounded Go `for` loop: one past the map size is enough fuel for every
terminating run, so `none` from fuel exhaustion coincides with a loop the
Go code never leaves; `none` from a failed lookup is the nil dereference
of `crdt.Elements[prevOp.NextID]` or of `crdt.Elements[Itoa(nextOpID)]`. -/
def samePlaceInsertLoop (es : Elems) (clientID : String) (newOpID : Nat) :
    Element → Nat → Option Element
  | _, 0 => none
  | prevOp, fuel + 1 =>
      if atoi prevOp.NextID ≥ newOpID then
        match lookupElem es prevOp.NextID with
        | none => none
        | some succOp =>
            if clientID ≠ succOp.ClientID then
              match lookupElem es (itoa (atoi prevOp.NextID)) with
              | none => none
              | some prevOp2 => samePlaceInsertLoop es clientID newOpID prevOp2 fuel
            else some prevOp
      else some prevOp

/-- Go `samePlaceInsertCheck`: returns the identifier of the element the new
element is to be linked after.  `none` models a panic (nil dereference of
`crdt.Elements[prevID]` or inside the loop) or a non-terminating loop. -/
def samePlaceInsertCheck (newElement : Element) (prevID opID : String) (crdt : CRDT) :
    Option String :=
  match lookupElem crdt.Elements prevID with
  | none => none
  | some prevOp =>
      if prevOp.NextID ≠ "" then
        (samePlaceInsertLoop crdt.Elements newElement.ClientID (atoi opID) prevOp
          (crdt.Elements.length + 1)).map (fun e => e.ID)
      else some prevID

/-- Go `normalInsert`: splice the new element after the anchor found by
`samePlaceInsertCheck`. -/
def normalInsert (newElement : Element) (prevID opID : String) (crdt : CRDT) :
    Option (Element × CRDT) :=
  match samePlaceInsertCheck newElement prevID opID crdt with
  | none => none
  | some newPrevID =>
      match lookupElem crdt.Elements newPrevID with
      | none => none
      | some prevOp =>
          some ({ newElement with NextID := prevOp.NextID },
            { crdt with
                Elements := setElem crdt.Elements newPrevID
                  { prevOp with NextID := opID } })

/-- Go `addOpAndIncrementCounter`: record the element in the map, append a
deep copy to the worker's local-operation buffer, bump the counter. -/
def addOpAndIncrementCounter (newElement : Element) (opID : String) (crdt : CRDT)
    (localOps : List Element) : CRDT × List Element :=
  ({ crdt with
      Elements := setElem crdt.Elements opID newElement,
      NextOpNumber := crdt.NextOpNumber + 1 },
   localOps ++ [newElement])

/-- Go `addToCRDT`: the four-case insert resolver. -/
def addToCRDT (newElement : Element) (crdt : CRDT) (localOps : List Element) :
    Option (CRDT × List Element) :=
  match firstCRDTEntry newElement.ID crdt with
  | (true, crdt1) => some (addOpAndIncrementCounter newElement newElement.ID crdt1 localOps)
  | (false, crdt1) =>
      match replacingFirstOp newElement newElement.PrevID newElement.ID crdt1 with
      | none => none
      | some (true, e2, crdt2) => some (addOpAndIncrementCounter e2 e2.ID crdt2 localOps)
      | some (false, e2, crdt2) =>
          match normalInsert e2 e2.PrevID e2.ID crdt2 with
          | none => none
          | some (e3, crdt3) => some (addOpAndIncrementCounter e3 e3.ID crdt3 localOps)

/-- Go `prevIDExists`. -/
def prevIDExists (w : Worker) (prevID sessionID : String) : Bool :=
  match lookupCRDT w.crdt sessionID with
  | some crdt => (lookupElem crdt.Elements prevID).isSome || prevID == INITIAL_ID
  | none => false

/-- Go `addRight`.  The second component of the result is the Go `error`
return value, which is `nil` (`none`) on every return path of the source;
the outer `Option` models a panic inside the resolver. -/
def addRight (w : Worker) (prevID content sessionID : String) :
    Option (Worker × Option String) :=
  if prevIDExists w prevID sessionID = false then some (w, none)
  else
    match lookupCRDT w.crdt sessionID with
    | none => some (w, none)
    | some crdt =>
        let opID := mintOpID crdt.NextOpNumber w.workerID
        let newElement : Element :=
          ⟨sessionID, itoa w.workerID, false, opID, prevID, "", content⟩
        match addToCRDT newElement crdt w.localOps with
        | none => none
        | some (crdt2, ops2) =>
            some ({ w with crdt := setCRDT w.crdt sessionID crdt2, localOps := ops2 }, none)

/-- One iteration of the loop in Go `ApplyIncomingOps`: unknown session is
skipped, a known element id is skipped, otherwise the op goes through the
insert resolver. -/
def applyIncomingOp (w : Worker) (op : Element) : Option Worker :=
  match lookupCRDT w.crdt op.SessionID with
  | none => some w
  | some crdt =>
      match lookupElem crdt.Elements op.ID with
      | some _ => some w
      | none =>
          match addToCRDT op crdt w.localOps with
          | none => none
          | some (crdt2, ops2) =>
              some { w with crdt := setCRDT w.crdt op.SessionID crdt2, localOps := ops2 }

/-- Go `ApplyIncomingOps`: fold the incoming batch through
`applyIncomingOp`; a panic (`none`) aborts the whole call. -/
def ApplyIncomingOps (w : Worker) (incomingOps : List Element) : Option Worker :=
  match incomingOps with
  | [] => some w
  | op :: rest =>
      match applyIncomingOp w op with
      | none => none
      | some w2 => ApplyIncomingOps w2 rest

/-- Fuel-driven walk of Go `getMessage`: follow `NextID` links from a key
until a lookup fails.  Fuel one past the map size is enough for every
terminating run of the Go loop (a revisited key makes the Go loop cycle
forever), so truncation coincides with divergence. -/
def walkAux (es : Elems) : String → Nat → List Element
  | _, 0 => []
  | cur, fuel + 1 =>
      match lookupElem es cur with
      | none => []
      | some e => e :: walkAux es e.NextID fuel

/-- The ordered sequence of elements rendered by Go `getMessage`. -/
def walkElems (crdt : CRDT) : List Element :=
  walkAux crdt.Elements crdt.CrdtFirstID (crdt.Elements.length + 1)

/-- The text Go `getMessage` returns. -/
def getMessage (crdt : CRDT) : String :=
  String.join ((walkElems crdt).map (fun e => e.Text))

/-- Identifiers of the walked elements, in walk order. -/
def walkIDs (crdt : CRDT) : List String :=
  (walkElems crdt).map (fun e => e.ID)

/-- Insert a single element into a document through the resolver, ignoring
the local-operation buffer: the document component of `addToCRDT`. -/
def docInsert (crdt : CRDT) (e : Element) : Option CRDT :=
  (addToCRDT e crdt []).map (fun p => p.1)

/-- The rendered text of one session held by a worker. -/
def getSessionMessage (w : Worker) (sessionID : String) : Option String :=
  (lookupCRDT w.crdt sessionID).map getMessage

/-! ### Concrete states used by several claims -/

/-- Element `11`: client 1 types "a" at the sentinel anchor. -/
def eA : Element := ⟨"s1", "1", false, "11", "12345", "", "a"⟩

/-- Element `12`: client 1 types "b" after element 11. -/
def eB : Element := ⟨"s1", "1", false, "12", "11", "", "b"⟩

/-- Element `21`: client 2 types "c" after element 11. -/
def eC : Element := ⟨"s1", "2", false, "21", "11", "", "c"⟩

/-- A fresh, empty document, as `newSession` creates it. -/
def d0 : CRDT := ⟨[], "", 1⟩

/-- A document holding only element 11. -/
def dA : CRDT := ⟨[("11", eA)], "11", 2⟩

/-! ### C7: the reference scenario -/

/-- C7: starting from an empty document, inserting
(id "11", prev sentinel, client "1", "a") sets `CrdtFirstID` to "11";
then (id "12", prev "11", client "1", "b") renders "ab"; then
(id "21", prev "11", client "2", "c") renders "acb". -/
theorem scenario_insert_walk :
    ((docInsert d0 eA).map (fun d => d.CrdtFirstID) = some "11")
    ∧ ((docInsert d0 eA >>= fun d => docInsert d eB).map getMessage = some "ab")
    ∧ ((docInsert d0 eA >>= fun d => docInsert d eB >>= fun d2 => docInsert d2 eC).map
        getMessage = some "acb") := by
  decide

/-! ### C1: convergence fails for same-client operations delivered out of order -/

/-- Two same-client operations both anchored at element 11, as produced by
client 2 typing twice at the same position (counters 2 and 4). -/
def op22 : Element := ⟨"s1", "2", false, "22", "11", "", "x"⟩

/-- See `op22`. -/
def op42 : Element := ⟨"s1", "2", false, "42", "11", "", "y"⟩

/-- A worker holding session "s1" with only element 11. -/
def wBase : Worker := ⟨3, [("s1", dA)], []⟩

/-- C1 fails on the code: two replicas that receive the same set of
operations (here: both of client 2's inserts at anchor 11) in different
orders end with different rendered texts, because the concurrent-insert
walk stops early at a successor that shares the new element's `ClientID`
in one order but uses the numeric rule in the other. -/
theorem convergence_fails_on_same_client_reorder :
    ((ApplyIncomingOps wBase [op22, op42]).bind (fun w => getSessionMessage w "s1")
      = some "ayx")
    ∧ ((ApplyIncomingOps wBase [op42, op22]).bind (fun w => getSessionMessage w "s1")
      = some "axy")
    ∧ ("ayx" : String) ≠ "axy" := by
  decide

/-! ### C4: the merge path appends remote operations to `localOps` -/

/-- A remote operation from client 9 for session "s1". -/
def opRemote : Element := ⟨"s1", "9", false, "15", "12345", "", "z"⟩

/-- A worker with id 1 holding an empty document for session "s1". -/
def wEmptyS1 : Worker := ⟨1, [("s1", d0)], []⟩

/-- C4 fails on the code: `addOpAndIncrementCounter` appends every applied
element to `localOps`, including elements merged from a remote peer, so
after merging client 9's operation, worker 1's local-operation buffer
holds an element whose `ClientID` is "9", not this worker's "1". -/
theorem merge_appends_remote_op_to_localOps :
    (applyIncomingOp wEmptyS1 opRemote).map (fun w => w.localOps.map (fun e => e.ClientID))
      = some ["9"]
    ∧ itoa wEmptyS1.workerID = "1"
    ∧ ("9" : String) ≠ "1" := by
  decide

/-! ### C2: same-client inserts at one anchor are walked in reverse call order -/

/-- First same-client insert at anchor 11 (client 2, counter 1). -/
def f12 : Element := ⟨"s1", "2", false, "12", "11", "", "p"⟩

/-- Second same-client insert at anchor 11 (client 2, counter 2). -/
def f22 : Element := ⟨"s1", "2", false, "22", "11", "", "q"⟩

/-- C2 fails on the code: applying two inserts of client 2 that both
reference anchor 11, in call order `f12` then `f22`, walks the
second-applied element before the first-applied one ("11","22","12"),
not in call order ("11","12","22"). -/
theorem same_client_inserts_walk_in_reverse_call_order :
    ((docInsert dA f12 >>= fun d => docInsert d f22).map walkIDs
      = some ["11", "22", "12"])
    ∧ (["11", "22", "12"] : List String) ≠ ["11", "12", "22"] := by
  decide

/-! ### C3: unknown references are not signalled, and crash the merge path -/

/-- An operation whose reference "77" is absent from the document. -/
def opBadRef : Element := ⟨"s1", "2", false, "31", "77", "", "z"⟩

/-- C3 fails on the code: merging an operation whose reference is unknown
dereferences a nil map entry inside `samePlaceInsertCheck` (modelled
`none`), it is not rejected with the document left unchanged; and the
local path drops such an insert returning a `nil` error, so no
unknown-reference condition is signalled to the caller. -/
theorem unknown_reference_not_rejected :
    applyIncomingOp wBase opBadRef = none
    ∧ addRight wBase "99" "z" "s1" = some (wBase, none) := by
  decide

/-- C3 (amended): on the local path an insert whose reference does not
exist is silently dropped — `addRight` leaves the worker unchanged and
returns the Go `nil` error; on the merge path the reference is not
checked at all, and applying an operation with an unknown reference to a
non-empty document fails with a nil dereference (`none`) instead of a
clean rejection. -/
theorem unknown_reference_amended :
    (∀ (w : Worker) (prevID content sessionID : String),
      prevIDExists w prevID sessionID = false →
      addRight w prevID content sessionID = some (w, none))
    ∧ (∀ (w : Worker) (op : Element) (crdt : CRDT),
      lookupCRDT w.crdt op.SessionID = some crdt →
      crdt.Elements ≠ [] →
      lookupElem crdt.Elements op.ID = none →
      op.PrevID ≠ INITIAL_ID →
      lookupElem crdt.Elements op.PrevID = none →
      applyIncomingOp w op = none) := by
  constructor
  · intro w prevID content sessionID h
    simp [addRight, h]
  · intro w op crdt hs hne hid hprev hlook
    have hlen : ¬ crdt.Elements.length ≤ 0 := by
      cases hE : crdt.Elements with
      | nil => exact absurd hE hne
      | cons a l => simp [hE]
    simp [applyIncomingOp, hs, hid, addToCRDT, firstCRDTEntry, hlen,
      replacingFirstOp, hprev, normalInsert, samePlaceInsertCheck, hlook]

/-- Witness for `unknown_reference_amended` at concrete inputs. -/
theorem unknown_reference_amended_witness :
    addRight wBase "99" "z" "s1" = some (wBase, none)
    ∧ applyIncomingOp wBase opBadRef = none :=
  ⟨unknown_reference_amended.1 wBase "99" "z" "s1" (by decide),
   unknown_reference_amended.2 wBase opBadRef dA (by decide) (by decide)
     (by decide) (by decide) (by decide)⟩

/-! ### C10: local insert on an unknown session is a silent no-op -/

/-- C10: when the worker holds no document for `sessionID`, `addRight`
returns the Go `nil` error and leaves the whole worker state — document
map, local-operation buffer and every counter — unchanged. -/
theorem addRight_unknown_session_noop
    (w : Worker) (prevID content sessionID : String)
    (h : lookupCRDT w.crdt sessionID = none) :
    addRight w prevID content sessionID = some (w, none) := by
  have hex : prevIDExists w prevID sessionID = false := by
    simp [prevIDExists, h]
  simp [addRight, hex]

/-- Witness for `addRight_unknown_session_noop`. -/
theorem addRight_unknown_session_noop_witness :
    addRight wBase "11" "t" "nosuch" = some (wBase, none) :=
  addRight_unknown_session_noop wBase "11" "t" "nosuch" (by decide)

/-! ### Map lemmas -/

/-- Writing a key and reading it back gives the written element. -/
theorem lookupElem_setElem_self (es : Elems) (k : String) (v : Element) :
    lookupElem (setElem es k v) k = some v := by
  induction es with
  | nil => simp [setElem, lookupElem]
  | cons p rest ih =>
    obtain ⟨k2, v2⟩ := p
    by_cases hk : k2 = k
    · simp [setElem, hk, lookupElem]
    · simp [setElem, hk, lookupElem, ih]

/-- Writing one key leaves every other key's lookup unchanged. -/
theorem lookupElem_setElem_ne (es : Elems) (k k2 : String) (v : Element)
    (h : k2 ≠ k) : lookupElem (setElem es k v) k2 = lookupElem es k2 := by
  have hne2 : ¬ k = k2 := fun hkk => h hkk.symm
  induction es with
  | nil => simp [setElem, lookupElem, hne2]
  | cons p rest ih =>
    obtain ⟨k3, v3⟩ := p
    by_cases hk : k3 = k
    · have hne3 : ¬ k3 = k2 := by rw [hk]; exact hne2
      simp [setElem, hk, lookupElem, hne3, hne2]
    · simp [setElem, hk, lookupElem, ih]

/-- Writing the same key twice keeps only the second write. -/
theorem setElem_setElem_same (es : Elems) (k : String) (v v2 : Element) :
    setElem (setElem es k v) k v2 = setElem es k v2 := by
  induction es with
  | nil => simp [setElem]
  | cons p rest ih =>
    obtain ⟨k3, v3⟩ := p
    by_cases hk : k3 = k
    · simp [setElem, hk]
    · simp [setElem, hk, ih]

/-- Session-map analogue of `lookupElem_setElem_self`. -/
theorem lookupCRDT_setCRDT_self (m : List (String × CRDT)) (k : String) (v : CRDT) :
    lookupCRDT (setCRDT m k v) k = some v := by
  induction m with
  | nil => simp [setCRDT, lookupCRDT]
  | cons p rest ih =>
    obtain ⟨k2, v2⟩ := p
    by_cases hk : k2 = k
    · simp [setCRDT, hk, lookupCRDT]
    · simp [setCRDT, hk, lookupCRDT, ih]

/-! ### C6: the merge path is idempotent -/

/-- After a successful `addToCRDT`, the inserted identifier is a key of the
document's element map. -/
theorem addToCRDT_lookup_isSome (e : Element) (c : CRDT) (ops : List Element)
    (c2 : CRDT) (ops2 : List Element) (h : addToCRDT e c ops = some (c2, ops2)) :
    (lookupElem c2.Elements e.ID).isSome = true := by
  unfold addToCRDT at h
  split at h
  next crdt1 heq1 =>
    injection h with h2
    have hc : c2 = (addOpAndIncrementCounter e e.ID crdt1 ops).1 := by
      rw [h2]
    rw [hc]
    simp [addOpAndIncrementCounter, lookupElem_setElem_self]
  next crdt1 heq1 =>
    split at h
    · exact absurd h (by simp)
    next e2 crdt2 heq2 =>
      have hid : e2.ID = e.ID := by
        unfold replacingFirstOp at heq2
        split at heq2
        · split at heq2
          · exact absurd heq2 (by simp)
          · injection heq2 with h3
            injection h3 with h4 h5
            injection h5 with h6 h7
            rw [← h6]
        · injection heq2 with h3
          injection h3 with h4 h5
          exact absurd h4 (by simp)
      injection h with h2
      have hc : c2 = (addOpAndIncrementCounter e2 e2.ID crdt2 ops).1 := by
        rw [h2]
      rw [hc, ← hid]
      simp [addOpAndIncrementCounter, lookupElem_setElem_self]
    next e2 crdt2 heq2 =>
      have hid : e2.ID = e.ID := by
        unfold replacingFirstOp at heq2
        split at heq2
        · split at heq2
          · exact absurd heq2 (by simp)
          · injection heq2 with h3
            injection h3 with h4 h5
            exact absurd h4 (by simp)
        · injection heq2 with h3
          injection h3 with h4 h5
          injection h5 with h6 h7
          rw [← h6]
      split at h
      · exact absurd h (by simp)
      next e3 crdt3 heq3 =>
        have hid3 : e3.ID = e2.ID := by
          unfold normalInsert at heq3
          split at heq3
          · exact absurd heq3 (by simp)
          · split at heq3
            · exact absurd heq3 (by simp)
            · injection heq3 with h3
              injection h3 with h4 h5
              rw [← h4]
        injection h with h2
        have hc : c2 = (addOpAndIncrementCounter e3 e3.ID crdt3 ops).1 := by
          rw [h2]
        rw [hc, ← hid, ← hid3]
        simp [addOpAndIncrementCounter, lookupElem_setElem_self]

/-- One merged operation, merged again onto the resulting state, is a
no-op: the second delivery finds the identifier present and skips it. -/
theorem applyIncomingOp_idem_step (w w2 : Worker) (op : Element)
    (h : applyIncomingOp w op = some w2) : applyIncomingOp w2 op = some w2 := by
  unfold applyIncomingOp at h
  split at h
  next hs =>
    injection h with h2
    subst h2
    simp [applyIncomingOp, hs]
  next crdt hs =>
    split at h
    next v hl =>
      injection h with h2
      subst h2
      simp [applyIncomingOp, hs, hl]
    next hl =>
      split at h
      · exact absurd h (by simp)
      next crdt2 ops2 heq =>
        injection h with h2
        subst h2
        have hsome := addToCRDT_lookup_isSome op crdt w.localOps crdt2 ops2 heq
        obtain ⟨v, hv⟩ := Option.isSome_iff_exists.mp hsome
        simp [applyIncomingOp, lookupCRDT_setCRDT_self, hv]

/-- C6: delivering the same operation twice through the merge entry point
yields exactly the state reached by delivering it once — the second
delivery finds the identifier in the element map and is skipped without
any state change. -/
theorem merge_idempotent (w : Worker) (op : Element) :
    ApplyIncomingOps w [op, op] = ApplyIncomingOps w [op] := by
  cases happ : applyIncomingOp w op with
  | none => simp [ApplyIncomingOps, happ]
  | some w2 =>
    simp [ApplyIncomingOps, happ, applyIncomingOp_idem_step w w2 op happ]

/-! ### C8: the identifier-minting scheme -/

/-- Reading back a decimal digit character gives the digit. -/
theorem digitChar_toNat : ∀ d < 10, (Nat.digitChar d).toNat - 48 = d := by decide

/-- A decimal digit character is a digit character. -/
theorem digitChar_isDigit : ∀ d < 10, (Nat.digitChar d).isDigit = true := by decide

/-- Folding the digit-reading step over the rendered digits of `n`
reconstructs `n` (shifted under any accumulator). -/
theorem foldl_itoaCore (fuel : Nat) : ∀ n a, n < fuel →
    List.foldl (fun a c => a * 10 + (c.toNat - 48)) a (itoaCore fuel n)
      = a * 10 ^ (itoaCore fuel n).length + n := by
  induction fuel with
  | zero => intro n a h; exact absurd h (Nat.not_lt_zero n)
  | succ fuel ih =>
    intro n a h
    by_cases h0 : n = 0
    · subst h0; simp [itoaCore]
    · rw [itoaCore]
      simp only [h0, if_false]
      rw [List.foldl_append]
      have hdiv : n / 10 < fuel :=
        lt_of_lt_of_le (Nat.div_lt_self (Nat.pos_of_ne_zero h0) (by norm_num))
          (Nat.lt_succ_iff.mp h)
      rw [ih (n / 10) a hdiv]
      simp only [List.foldl_cons, List.foldl_nil, List.length_append,
        List.length_cons, List.length_nil]
      have hmod : n % 10 < 10 := Nat.mod_lt _ (by norm_num)
      rw [digitChar_toNat (n % 10) hmod]
      have h1 : (a * 10 ^ (itoaCore fuel (n / 10)).length + n / 10) * 10 + n % 10
          = a * 10 ^ ((itoaCore fuel (n / 10)).length + (0 + 1)) + (n / 10 * 10 + n % 10) := by
        ring
      rw [h1]
      have h2 : n / 10 * 10 + n % 10 = n := by omega
      rw [h2]

/-- The rendered digit list of a nonzero number is nonempty. -/
theorem itoaCore_ne_nil (fuel n : Nat) (h0 : n ≠ 0) : itoaCore (fuel + 1) n ≠ [] := by
  rw [itoaCore]
  simp [h0]

/-- Every character rendered by `itoaCore` is a digit character. -/
theorem itoaCore_digits (fuel : Nat) : ∀ n c, c ∈ itoaCore fuel n → c.isDigit = true := by
  induction fuel with
  | zero => intro n c h; simp [itoaCore] at h
  | succ fuel ih =>
    intro n c h
    rw [itoaCore] at h
    by_cases h0 : n = 0
    · simp [h0] at h
    · simp only [h0, if_false, List.mem_append, List.mem_singleton] at h
      rcases h with h | h
      · exact ih _ _ h
      · rw [h]; exact digitChar_isDigit _ (Nat.mod_lt _ (by norm_num))

/-- Parsing the rendering of a number gives the number back: the code's
`Atoi` inverts its `Itoa` on every natural number. -/
theorem atoi_itoa (n : Nat) : atoi (itoa n) = n := by
  by_cases h0 : n = 0
  · subst h0; decide
  · rw [itoa]
    simp only [h0, if_false]
    rw [atoi]
    have hdata : (String.mk (itoaCore (n + 1) n)).data = itoaCore (n + 1) n := rfl
    rw [hdata]
    have hne : itoaCore (n + 1) n ≠ [] := itoaCore_ne_nil n n h0
    have hall : (itoaCore (n + 1) n).all (fun c => c.isDigit) = true := by
      rw [List.all_eq_true]
      intro c hc
      exact itoaCore_digits _ _ _ hc
    rw [if_pos ⟨hne, hall⟩]
    rw [atoiChars, foldl_itoaCore (n + 1) n 0 (Nat.lt_succ_self n)]
    simp

/-- `itoa` renders distinct numbers as distinct strings. -/
theorem itoa_injective (a b : Nat) (h : itoa a = itoa b) : a = b := by
  have h2 := congrArg atoi h
  rwa [atoi_itoa, atoi_itoa] at h2

/-- Character data of an appended string. -/
theorem string_data_append (s t : String) : (s ++ t).data = s.data ++ t.data := rfl

/-- Two strings with the same character data are equal. -/
theorem string_eq_of_data_eq (s t : String) (h : s.data = t.data) : s = t := by
  cases s
  cases t
  exact congrArg String.mk h

/-- C8 fails on the code: concatenating the decimal digits of the counter
and of the worker identifier is not injective across arbitrary pairs —
counter 1 with worker 23 and counter 12 with worker 3 both mint "123". -/
theorem mintOpID_not_injective :
    mintOpID 1 23 = mintOpID 12 3 ∧ ((1, 23) : Nat × Nat) ≠ (12, 3) := by
  decide

/-- C8 (amended): the minted identifier is injective in each coordinate —
at a fixed counter distinct workers mint distinct identifiers, and a fixed
worker mints distinct identifiers at distinct counters — but not jointly
injective in the (counter, worker) pair. -/
theorem mintOpID_injective_componentwise :
    (∀ c w1 w2 : Nat, mintOpID c w1 = mintOpID c w2 → w1 = w2)
    ∧ (∀ c1 c2 w : Nat, mintOpID c1 w = mintOpID c2 w → c1 = c2) := by
  constructor
  · intro c w1 w2 h
    have hd := congrArg String.data h
    rw [mintOpID, mintOpID, string_data_append, string_data_append] at hd
    have h1 : (itoa w1).data = (itoa w2).data := List.append_cancel_left hd
    exact itoa_injective _ _ (string_eq_of_data_eq _ _ h1)
  · intro c1 c2 w h
    have hd := congrArg String.data h
    rw [mintOpID, mintOpID, string_data_append, string_data_append] at hd
    have h1 : (itoa c1).data = (itoa c2).data := List.append_cancel_right hd
    exact itoa_injective _ _ (string_eq_of_data_eq _ _ h1)

/-- Witness for `mintOpID_injective_componentwise` at concrete inputs. -/
theorem mintOpID_injective_componentwise_witness : (5 : Nat) = 5 ∧ (7 : Nat) = 7 :=
  ⟨mintOpID_injective_componentwise.1 2 5 5 rfl,
   mintOpID_injective_componentwise.2 7 7 4 rfl⟩

/-! ### Symbolic evaluation of the resolver -/

/-- When the referenced element has no successor, the concurrent-insert
check returns the reference itself. -/
theorem samePlaceInsertCheck_empty_next (e : Element) (c : CRDT) (prevOp : Element)
    (prevID : String) (hp : lookupElem c.Elements prevID = some prevOp)
    (hne : prevOp.NextID = "") :
    samePlaceInsertCheck e prevID e.ID c = some prevID := by
  simp [samePlaceInsertCheck, hp, hne]

/-- The concurrent-insert walk stops at the referenced element itself when
its successor either has a numerically smaller identifier or shares the
new element's `ClientID`. -/
theorem samePlaceInsertCheck_stop (e : Element) (c : CRDT) (prevOp : Element)
    (prevID : String) (hp : lookupElem c.Elements prevID = some prevOp)
    (hne : prevOp.NextID ≠ "")
    (hstop : atoi prevOp.NextID < atoi e.ID
      ∨ ∃ s, lookupElem c.Elements prevOp.NextID = some s ∧ e.ClientID = s.ClientID) :
    samePlaceInsertCheck e prevID e.ID c = some prevOp.ID := by
  simp only [samePlaceInsertCheck, hp]
  rw [if_pos hne]
  rcases hstop with hlt | ⟨s, hs, hcl⟩
  · simp only [samePlaceInsertLoop]
    rw [if_neg (not_le.mpr hlt)]
    rfl
  · by_cases hge : atoi prevOp.NextID ≥ atoi e.ID
    · simp only [samePlaceInsertLoop]
      rw [if_pos hge, hs]
      simp [hcl]
    · simp only [samePlaceInsertLoop]
      rw [if_neg hge]
      rfl

/-- Evaluation of `addToCRDT` when the resolver takes the normal-insert
path and `samePlaceInsertCheck` finds anchor `anchorID`. -/
theorem addToCRDT_normal (e : Element) (c : CRDT) (anchorID : String) (anchor : Element)
    (ops : List Element)
    (hlen : c.Elements ≠ [])
    (hprev : e.PrevID ≠ INITIAL_ID)
    (hspc : samePlaceInsertCheck e e.PrevID e.ID c = some anchorID)
    (hanchor : lookupElem c.Elements anchorID = some anchor) :
    addToCRDT e c ops = some
      ({ c with
          Elements := setElem (setElem c.Elements anchorID { anchor with NextID := e.ID })
            e.ID { e with NextID := anchor.NextID },
          NextOpNumber := c.NextOpNumber + 1 },
       ops ++ [{ e with NextID := anchor.NextID }]) := by
  have hlen2 : ¬ c.Elements.length ≤ 0 := by
    cases hE : c.Elements with
    | nil => exact absurd hE hlen
    | cons a l => simp [hE]
  simp [addToCRDT, firstCRDTEntry, hlen2, replacingFirstOp, hprev, normalInsert,
    hspc, hanchor, addOpAndIncrementCounter]

/-! ### C2 (amended): same-client inserts at one anchor, general form -/

/-- C2 (amended): two inserts with the same `ClientID` that both reference
an anchor with no successor are linked in reverse call order — after
applying `e1` then `e2`, the anchor's successor is `e2`, whose successor
is `e1`; the tie-break walk stops at the anchor (it never walks past a
same-client successor), so the later local insert always lands directly
after the anchor. -/
theorem same_client_anchor_reverse_call_order
    (c : CRDT) (A e1 e2 : Element) (aid : String)
    (hA : lookupElem c.Elements aid = some A)
    (hAnext : A.NextID = "")
    (hAid : A.ID = aid)
    (haid : aid ≠ INITIAL_ID)
    (h1p : e1.PrevID = aid) (h2p : e2.PrevID = aid)
    (hcl : e1.ClientID = e2.ClientID)
    (h1f : lookupElem c.Elements e1.ID = none)
    (h2f : lookupElem c.Elements e2.ID = none)
    (h12 : e1.ID ≠ e2.ID)
    (h1e : e1.ID ≠ "") :
    ∃ r, (docInsert c e1 >>= fun d => docInsert d e2) = some r
      ∧ (lookupElem r.Elements aid).map (fun x => x.NextID) = some e2.ID
      ∧ (lookupElem r.Elements e2.ID).map (fun x => x.NextID) = some e1.ID
      ∧ (lookupElem r.Elements e1.ID).map (fun x => x.NextID) = some "" := by
  have h1aid : e1.ID ≠ aid := by
    intro h
    rw [h, hA] at h1f
    exact absurd h1f (by simp)
  have h2aid : e2.ID ≠ aid := by
    intro h
    rw [h, hA] at h2f
    exact absurd h2f (by simp)
  have hne0 : c.Elements ≠ [] := by
    intro h
    rw [h] at hA
    exact absurd hA (by simp [lookupElem])
  have hspc1 : samePlaceInsertCheck e1 e1.PrevID e1.ID c = some aid := by
    rw [h1p]
    exact samePlaceInsertCheck_empty_next e1 c A aid hA hAnext
  have hstep1 := addToCRDT_normal e1 c aid A [] hne0 (by rw [h1p]; exact haid) hspc1 hA
  have hc1aid : lookupElem
      (setElem (setElem c.Elements aid { A with NextID := e1.ID })
        e1.ID { e1 with NextID := A.NextID }) aid = some { A with NextID := e1.ID } := by
    rw [lookupElem_setElem_ne _ _ _ _ (Ne.symm h1aid), lookupElem_setElem_self]
  have hc1e1 : lookupElem
      (setElem (setElem c.Elements aid { A with NextID := e1.ID })
        e1.ID { e1 with NextID := A.NextID }) e1.ID = some { e1 with NextID := A.NextID } :=
    lookupElem_setElem_self _ _ _
  have hc1len : (setElem (setElem c.Elements aid { A with NextID := e1.ID })
      e1.ID { e1 with NextID := A.NextID }) ≠ [] := by
    intro h
    rw [h] at hc1aid
    exact absurd hc1aid (by simp [lookupElem])
  have hspc2 : samePlaceInsertCheck e2 e2.PrevID e2.ID
      { c with
          Elements := setElem (setElem c.Elements aid { A with NextID := e1.ID })
            e1.ID { e1 with NextID := A.NextID },
          NextOpNumber := c.NextOpNumber + 1 } = some aid := by
    rw [h2p]
    have hres := samePlaceInsertCheck_stop e2
      { c with
          Elements := setElem (setElem c.Elements aid { A with NextID := e1.ID })
            e1.ID { e1 with NextID := A.NextID },
          NextOpNumber := c.NextOpNumber + 1 }
      { A with NextID := e1.ID } aid hc1aid h1e
      (Or.inr ⟨{ e1 with NextID := A.NextID }, hc1e1, hcl.symm⟩)
    rw [hres]
    exact congrArg some hAid
  have hstep2 := addToCRDT_normal e2
    { c with
        Elements := setElem (setElem c.Elements aid { A with NextID := e1.ID })
          e1.ID { e1 with NextID := A.NextID },
        NextOpNumber := c.NextOpNumber + 1 }
    aid { A with NextID := e1.ID } [] hc1len (by rw [h2p]; exact haid) hspc2 hc1aid
  refine ⟨{ c with
      Elements := setElem (setElem (setElem (setElem c.Elements aid
          { A with NextID := e1.ID }) e1.ID { e1 with NextID := A.NextID })
        aid { A with NextID := e2.ID }) e2.ID { e2 with NextID := e1.ID },
      NextOpNumber := c.NextOpNumber + 2 }, ?_, ?_, ?_, ?_⟩
  · show (docInsert c e1 >>= fun d => docInsert d e2) = _
    rw [docInsert, hstep1]
    show docInsert _ e2 = _
    rw [docInsert, hstep2]
    rfl
  · rw [lookupElem_setElem_ne _ _ _ _ (Ne.symm h2aid), lookupElem_setElem_self]
    rfl
  · rw [lookupElem_setElem_self]
    rfl
  · rw [lookupElem_setElem_ne _ _ _ _ h12,
      lookupElem_setElem_ne _ _ _ _ h1aid, lookupElem_setElem_self]
    rw [hAnext]
    rfl

/-- Witness for `same_client_anchor_reverse_call_order` at concrete inputs:
the document holding only element 11, with client 2's inserts 12 then 22. -/
theorem same_client_anchor_reverse_call_order_witness :
    ∃ r, (docInsert dA f12 >>= fun d => docInsert d f22) = some r
      ∧ (lookupElem r.Elements "11").map (fun x => x.NextID) = some "22"
      ∧ (lookupElem r.Elements "22").map (fun x => x.NextID) = some "12"
      ∧ (lookupElem r.Elements "12").map (fun x => x.NextID) = some "" :=
  same_client_anchor_reverse_call_order dA eA f12 f22 "11"
    (by decide) (by decide) (by decide) (by decide) (by decide) (by decide)
    (by decide) (by decide) (by decide) (by decide) (by decide)

/-! ### C5: same-position tie-break determinism -/

/-- Unfolding one iteration of the concurrent-insert loop. -/
theorem samePlaceInsertLoop_succ (es : Elems) (cid : String) (nid : Nat)
    (prevOp : Element) (fuel : Nat) :
    samePlaceInsertLoop es cid nid prevOp (fuel + 1)
      = if atoi prevOp.NextID ≥ nid then
          match lookupElem es prevOp.NextID with
          | none => none
          | some succOp =>
              if cid ≠ succOp.ClientID then
                match lookupElem es (itoa (atoi prevOp.NextID)) with
                | none => none
                | some prevOp2 => samePlaceInsertLoop es cid nid prevOp2 fuel
              else some prevOp
        else some prevOp := rfl

/-- A string parsing to a positive value is nonempty. -/
theorem atoi_pos_ne_empty (s : String) (h : 0 < atoi s) : s ≠ "" := by
  intro he
  rw [he] at h
  exact absurd h (by decide)

/-- The concurrent-insert walk that moves exactly one element down: the
first successor has a numerically larger-or-equal identifier and a
different client, the element after it stops the walk numerically. -/
theorem samePlaceInsertCheck_one_step (e : Element) (c : CRDT) (prevOp succOp : Element)
    (prevID : String)
    (hp : lookupElem c.Elements prevID = some prevOp)
    (hne : prevOp.NextID ≠ "")
    (hge : atoi prevOp.NextID ≥ atoi e.ID)
    (hcl : e.ClientID ≠ succOp.ClientID)
    (hs : lookupElem c.Elements prevOp.NextID = some succOp)
    (hcanon : itoa (atoi prevOp.NextID) = prevOp.NextID)
    (hstop2 : atoi succOp.NextID < atoi e.ID) :
    samePlaceInsertCheck e prevID e.ID c = some succOp.ID := by
  obtain ⟨m, hm⟩ : ∃ m, c.Elements.length = m + 1 := by
    cases hE : c.Elements with
    | nil => rw [hE] at hp; exact absurd hp (by simp [lookupElem])
    | cons a l => exact ⟨l.length, rfl⟩
  simp only [samePlaceInsertCheck, hp]
  rw [if_pos hne, hm, samePlaceInsertLoop_succ, if_pos hge]
  simp only [hs]
  rw [if_pos hcl, hcanon]
  simp only [hs]
  rw [samePlaceInsertLoop_succ, if_neg (not_le.mpr hstop2)]
  rfl

/-- C5: with an anchor `A` having no successor, two inserts referencing
`A` with distinct clients and distinct positive canonical numeric
identifiers produce, in either application order, link-for-link identical
documents, and the element with the numerically larger identifier is
walked immediately after `A`, before the smaller one. -/
theorem tie_break_deterministic
    (c : CRDT) (A X Y : Element) (aid : String)
    (hA : lookupElem c.Elements aid = some A)
    (hAnext : A.NextID = "")
    (hAid : A.ID = aid)
    (haid : aid ≠ INITIAL_ID)
    (hXp : X.PrevID = aid) (hYp : Y.PrevID = aid)
    (hcl : X.ClientID ≠ Y.ClientID)
    (hXf : lookupElem c.Elements X.ID = none)
    (hYf : lookupElem c.Elements Y.ID = none)
    (hXY : atoi Y.ID < atoi X.ID)
    (hYpos : 0 < atoi Y.ID)
    (hXcanon : itoa (atoi X.ID) = X.ID) :
    ∃ r1 r2,
      (docInsert c X >>= fun d => docInsert d Y) = some r1
      ∧ (docInsert c Y >>= fun d => docInsert d X) = some r2
      ∧ r1.CrdtFirstID = r2.CrdtFirstID
      ∧ r1.NextOpNumber = r2.NextOpNumber
      ∧ (∀ k, lookupElem r1.Elements k = lookupElem r2.Elements k)
      ∧ (lookupElem r1.Elements aid).map (fun x => x.NextID) = some X.ID
      ∧ (lookupElem r1.Elements X.ID).map (fun x => x.NextID) = some Y.ID := by
  have hXe : X.ID ≠ "" := atoi_pos_ne_empty _ (lt_trans hYpos hXY)
  have hYe : Y.ID ≠ "" := atoi_pos_ne_empty _ hYpos
  have hXYne : X.ID ≠ Y.ID := by
    intro h
    rw [h] at hXY
    exact lt_irrefl _ hXY
  have hXaid : X.ID ≠ aid := by
    intro h
    rw [h, hA] at hXf
    exact absurd hXf (by simp)
  have hYaid : Y.ID ≠ aid := by
    intro h
    rw [h, hA] at hYf
    exact absurd hYf (by simp)
  have hne0 : c.Elements ≠ [] := by
    intro h
    rw [h] at hA
    exact absurd hA (by simp [lookupElem])
  have hspcX : samePlaceInsertCheck X X.PrevID X.ID c = some aid := by
    rw [hXp]
    exact samePlaceInsertCheck_empty_next X c A aid hA hAnext
  have hstepX := addToCRDT_normal X c aid A [] hne0 (by rw [hXp]; exact haid) hspcX hA
  have hc1aid : lookupElem
      (setElem (setElem c.Elements aid { A with NextID := X.ID })
        X.ID { X with NextID := A.NextID }) aid = some { A with NextID := X.ID } := by
    rw [lookupElem_setElem_ne _ _ _ _ (Ne.symm hXaid), lookupElem_setElem_self]
  have hc1X : lookupElem
      (setElem (setElem c.Elements aid { A with NextID := X.ID })
        X.ID { X with NextID := A.NextID }) X.ID = some { X with NextID := A.NextID } :=
    lookupElem_setElem_self _ _ _
  have hc1ne : (setElem (setElem c.Elements aid { A with NextID := X.ID })
      X.ID { X with NextID := A.NextID }) ≠ [] := by
    intro h
    rw [h] at hc1aid
    exact absurd hc1aid (by simp [lookupElem])
  have hspcY : samePlaceInsertCheck Y Y.PrevID Y.ID
      { c with
          Elements := setElem (setElem c.Elements aid { A with NextID := X.ID })
            X.ID { X with NextID := A.NextID },
          NextOpNumber := c.NextOpNumber + 1 } = some X.ID := by
    rw [hYp]
    have hstop2 : atoi ({ X with NextID := A.NextID } : Element).NextID < atoi Y.ID := by
      show atoi A.NextID < atoi Y.ID
      rw [hAnext]
      have h0 : atoi "" = 0 := by decide
      rw [h0]
      exact hYpos
    exact samePlaceInsertCheck_one_step Y
      { c with
          Elements := setElem (setElem c.Elements aid { A with NextID := X.ID })
            X.ID { X with NextID := A.NextID },
          NextOpNumber := c.NextOpNumber + 1 }
      { A with NextID := X.ID } { X with NextID := A.NextID } aid
      hc1aid hXe (le_of_lt hXY) (Ne.symm hcl) hc1X hXcanon hstop2
  have hstepY := addToCRDT_normal Y
    { c with
        Elements := setElem (setElem c.Elements aid { A with NextID := X.ID })
          X.ID { X with NextID := A.NextID },
        NextOpNumber := c.NextOpNumber + 1 }
    X.ID { X with NextID := A.NextID } [] hc1ne (by rw [hYp]; exact haid) hspcY hc1X
  have hspcY2 : samePlaceInsertCheck Y Y.PrevID Y.ID c = some aid := by
    rw [hYp]
    exact samePlaceInsertCheck_empty_next Y c A aid hA hAnext
  have hstepY2 := addToCRDT_normal Y c aid A [] hne0 (by rw [hYp]; exact haid) hspcY2 hA
  have hc2aid : lookupElem
      (setElem (setElem c.Elements aid { A with NextID := Y.ID })
        Y.ID { Y with NextID := A.NextID }) aid = some { A with NextID := Y.ID } := by
    rw [lookupElem_setElem_ne _ _ _ _ (Ne.symm hYaid), lookupElem_setElem_self]
  have hc2ne : (setElem (setElem c.Elements aid { A with NextID := Y.ID })
      Y.ID { Y with NextID := A.NextID }) ≠ [] := by
    intro h
    rw [h] at hc2aid
    exact absurd hc2aid (by simp [lookupElem])
  have hspcX2 : samePlaceInsertCheck X X.PrevID X.ID
      { c with
          Elements := setElem (setElem c.Elements aid { A with NextID := Y.ID })
            Y.ID { Y with NextID := A.NextID },
          NextOpNumber := c.NextOpNumber + 1 } = some aid := by
    rw [hXp]
    have hres := samePlaceInsertCheck_stop X
      { c with
          Elements := setElem (setElem c.Elements aid { A with NextID := Y.ID })
            Y.ID { Y with NextID := A.NextID },
          NextOpNumber := c.NextOpNumber + 1 }
      { A with NextID := Y.ID } aid hc2aid hYe (Or.inl hXY)
    rw [hres]
    exact congrArg some hAid
  have hstepX2 := addToCRDT_normal X
    { c with
        Elements := setElem (setElem c.Elements aid { A with NextID := Y.ID })
          Y.ID { Y with NextID := A.NextID },
        NextOpNumber := c.NextOpNumber + 1 }
    aid { A with NextID := Y.ID } [] hc2ne (by rw [hXp]; exact haid) hspcX2 hc2aid
  refine ⟨{ c with
      Elements := setElem (setElem (setElem (setElem c.Elements aid
          { A with NextID := X.ID }) X.ID { X with NextID := A.NextID })
        X.ID { X with NextID := Y.ID }) Y.ID { Y with NextID := A.NextID },
      NextOpNumber := c.NextOpNumber + 2 },
    { c with
      Elements := setElem (setElem (setElem (setElem c.Elements aid
          { A with NextID := Y.ID }) Y.ID { Y with NextID := A.NextID })
        aid { A with NextID := X.ID }) X.ID { X with NextID := Y.ID },
      NextOpNumber := c.NextOpNumber + 2 }, ?_, ?_, rfl, rfl, ?_, ?_, ?_⟩
  · show (docInsert c X >>= fun d => docInsert d Y) = _
    rw [docInsert, hstepX]
    show docInsert _ Y = _
    rw [docInsert, hstepY]
    rfl
  · show (docInsert c Y >>= fun d => docInsert d X) = _
    rw [docInsert, hstepY2]
    show docInsert _ X = _
    rw [docInsert, hstepX2]
    rfl
  · intro k
    by_cases hk1 : k = aid
    · subst hk1
      rw [lookupElem_setElem_ne _ _ _ _ (Ne.symm hYaid),
        lookupElem_setElem_ne _ _ _ _ (Ne.symm hXaid),
        lookupElem_setElem_ne _ _ _ _ (Ne.symm hXaid),
        lookupElem_setElem_self,
        lookupElem_setElem_ne _ _ _ _ (Ne.symm hXaid),
        lookupElem_setElem_self]
    · by_cases hk2 : k = X.ID
      · subst hk2
        rw [lookupElem_setElem_ne _ _ _ _ hXYne,
          lookupElem_setElem_self, lookupElem_setElem_self]
      · by_cases hk3 : k = Y.ID
        · subst hk3
          rw [lookupElem_setElem_self,
            lookupElem_setElem_ne _ _ _ _ (Ne.symm hXYne),
            lookupElem_setElem_ne _ _ _ _ hYaid,
            lookupElem_setElem_self]
        · rw [lookupElem_setElem_ne _ _ _ _ hk3,
            lookupElem_setElem_ne _ _ _ _ hk2,
            lookupElem_setElem_ne _ _ _ _ hk2,
            lookupElem_setElem_ne _ _ _ _ hk1,
            lookupElem_setElem_ne _ _ _ _ hk2,
            lookupElem_setElem_ne _ _ _ _ hk1,
            lookupElem_setElem_ne _ _ _ _ hk3,
            lookupElem_setElem_ne _ _ _ _ hk1]
  · rw [lookupElem_setElem_ne _ _ _ _ (Ne.symm hYaid),
      lookupElem_setElem_ne _ _ _ _ (Ne.symm hXaid),
      lookupElem_setElem_ne _ _ _ _ (Ne.symm hXaid),
      lookupElem_setElem_self]
    rfl
  · rw [lookupElem_setElem_ne _ _ _ _ hXYne, lookupElem_setElem_self]
    rfl

/-- Higher-identifier concurrent insert from client 3 at anchor 11. -/
def g42 : Element := ⟨"s1", "3", false, "42", "11", "", "m"⟩

/-- Lower-identifier concurrent insert from client 2 at anchor 11. -/
def g22 : Element := ⟨"s1", "2", false, "22", "11", "", "n"⟩

/-- Witness for `tie_break_deterministic` at concrete inputs: the document
holding only element 11, with concurrent inserts 42 (client 3) and 22
(client 2). -/
theorem tie_break_deterministic_witness :
    ∃ r1 r2,
      (docInsert dA g42 >>= fun d => docInsert d g22) = some r1
      ∧ (docInsert dA g22 >>= fun d => docInsert d g42) = some r2
      ∧ r1.CrdtFirstID = r2.CrdtFirstID
      ∧ r1.NextOpNumber = r2.NextOpNumber
      ∧ (∀ k, lookupElem r1.Elements k = lookupElem r2.Elements k)
      ∧ (lookupElem r1.Elements "11").map (fun x => x.NextID) = some "42"
      ∧ (lookupElem r1.Elements "42").map (fun x => x.NextID) = some "22" :=
  tie_break_deterministic dA eA g42 g22 "11"
    (by decide) (by decide) (by decide) (by decide) (by decide) (by decide)
    (by decide) (by decide) (by decide) (by decide) (by decide) (by decide)

/-! ### C9: the walk invariant -/

/-- Boolean check that `L` is exactly the chain of keys visited by
following `NextID` links from `cur`, terminating at the empty string. -/
def isWalkFrom (es : Elems) : String → List String → Bool
  | cur, [] => cur == ""
  | cur, k :: ks =>
      cur == k && (match lookupElem es cur with
        | none => false
        | some e => isWalkFrom es e.NextID ks)

/-- Every key bound in the map occurs in `L`. -/
def coversKeys (es : Elems) (L : List String) : Bool :=
  es.all (fun p => decide (p.1 ∈ L))

/-- The single-linked walk invariant of a document: some duplicate-free
key list is the full chain from `CrdtFirstID` to the empty terminator and
covers every key of the element map. -/
def WfCRDT (c : CRDT) : Prop :=
  ∃ L : List String, isWalkFrom c.Elements c.CrdtFirstID L = true
    ∧ L.Nodup ∧ coversKeys c.Elements L = true
    ∧ lookupElem c.Elements "" = none

/-- Keys visited by the rendering walk, in order (fuel-driven like
`walkElems`). -/
def walkKeysAux (es : Elems) : String → Nat → List String
  | _, 0 => []
  | cur, fuel + 1 =>
      match lookupElem es cur with
      | none => []
      | some e => cur :: walkKeysAux es e.NextID fuel

/-- See `walkKeysAux`. -/
def walkKeys (c : CRDT) : List String :=
  walkKeysAux c.Elements c.CrdtFirstID (c.Elements.length + 1)

/-- The double-consistency check of the claim: whenever the walk visits
`Y` immediately followed by `Z`, `Z.PrevID = Y.ID`. -/
def prevConsistent (c : CRDT) : Bool :=
  ((walkElems c).zip (walkElems c).tail).all (fun p => p.2.PrevID == p.1.ID)

/-- Executable form of the walk invariant, checked on the key list the
walk itself produces. -/
def wfCheck (c : CRDT) : Bool :=
  isWalkFrom c.Elements c.CrdtFirstID (walkKeys c)
    && decide (walkKeys c).Nodup && coversKeys c.Elements (walkKeys c)
    && (lookupElem c.Elements "").isNone

/-- C9 fails on the code: the document built from inserts 11 then 12
satisfies the full claimed invariant including double consistency, the
insert of 21 (reference 11) succeeds, and in the resulting document the
walk visits 21 immediately followed by 12 while 12's `PrevID` is still
"11", not "21" — `normalInsert` never rewrites the displaced successor's
`PrevID`. -/
theorem insert_breaks_prev_consistency :
    ∃ d2, (docInsert d0 eA >>= fun d => docInsert d eB) = some d2
      ∧ wfCheck d2 = true ∧ prevConsistent d2 = true
      ∧ (docInsert d2 eC).map prevConsistent = some false
      ∧ (docInsert d2 eC).map walkIDs = some ["11", "21", "12"]
      ∧ (docInsert d2 eC).bind (fun d3 => (lookupElem d3.Elements "12").map
          (fun x => x.PrevID)) = some "11" :=
  ⟨⟨[("11", ⟨"s1", "1", false, "11", "12345", "12", "a"⟩), ("12", eB)], "11", 3⟩,
    by decide⟩

/-! ### C9 (amended): preservation of the single-linked walk invariant -/

/-- Every key on a valid walk is bound in the map. -/
theorem isWalkFrom_lookup_isSome (es : Elems) (L : List String) :
    ∀ cur, isWalkFrom es cur L = true → ∀ k ∈ L, (lookupElem es k).isSome = true := by
  induction L with
  | nil => intro cur h k hk; simp at hk
  | cons k2 ks ih =>
    intro cur h k hk
    rw [isWalkFrom, Bool.and_eq_true] at h
    obtain ⟨h1, h2⟩ := h
    cases hl : lookupElem es cur with
    | none => rw [hl] at h2; simp at h2
    | some e =>
      rw [hl] at h2
      rcases List.mem_cons.mp hk with hk1 | hk1
      · have hcur : cur = k2 := by simpa using h1
        rw [hk1, ← hcur, hl]
        rfl
      · exact ih e.NextID h2 k hk1

/-- A walk only reads the `NextID` field of the map's bindings: two maps
agreeing on that projection at every walked key walk identically. -/
theorem isWalkFrom_congr (es es2 : Elems) (L : List String)
    (h : ∀ k ∈ L, (lookupElem es2 k).map (fun x => x.NextID)
        = (lookupElem es k).map (fun x => x.NextID)) :
    ∀ cur, isWalkFrom es2 cur L = isWalkFrom es cur L := by
  induction L with
  | nil => intro cur; rfl
  | cons k2 ks ih =>
    intro cur
    have hk2 := h k2 (List.mem_cons_self k2 ks)
    have ihfun := ih (fun k hk => h k (List.mem_cons_of_mem _ hk))
    by_cases hcur : cur = k2
    · rw [hcur]
      cases hl : lookupElem es k2 with
      | none =>
        have hl2 : lookupElem es2 k2 = none := by
          rw [hl] at hk2
          cases hx : lookupElem es2 k2 with
          | none => rfl
          | some x => rw [hx] at hk2; simp at hk2
        simp [isWalkFrom, hl, hl2]
      | some e =>
        rw [hl] at hk2
        obtain ⟨e2, hle2, hnexteq⟩ : ∃ e2, lookupElem es2 k2 = some e2
            ∧ e2.NextID = e.NextID := by
          cases hl2 : lookupElem es2 k2 with
          | none => rw [hl2] at hk2; simp at hk2
          | some x =>
            rw [hl2] at hk2
            exact ⟨x, rfl, by simpa using hk2⟩
        simp [isWalkFrom, hl, hle2, hnexteq, ihfun e.NextID]
    · have hb1 : (cur == k2) = false := by simp [hcur]
      simp [isWalkFrom, hb1]

/-- A successful lookup means some binding carries the key. -/
theorem lookupElem_some_exists_mem (es : Elems) (k : String) (v : Element)
    (h : lookupElem es k = some v) : ∃ p, p ∈ es ∧ p.1 = k := by
  induction es with
  | nil => simp [lookupElem] at h
  | cons p rest ih =>
    obtain ⟨k2, v2⟩ := p
    rw [lookupElem] at h
    by_cases hk : k2 = k
    · exact ⟨(k2, v2), List.mem_cons_self _ _, hk⟩
    · rw [if_neg hk] at h
      obtain ⟨q, hq, hq2⟩ := ih h
      exact ⟨q, List.mem_cons_of_mem _ hq, hq2⟩

/-- Bindings of an updated map are the written pair or an old binding. -/
theorem mem_setElem (es : Elems) (k : String) (v : Element) (p : String × Element)
    (h : p ∈ setElem es k v) : p = (k, v) ∨ p ∈ es := by
  induction es with
  | nil =>
    rw [setElem] at h
    rcases List.mem_cons.mp h with h1 | h1
    · exact Or.inl h1
    · simp at h1
  | cons q rest ih =>
    obtain ⟨k2, v2⟩ := q
    rw [setElem] at h
    by_cases hk : k2 = k
    · rw [if_pos hk] at h
      rcases List.mem_cons.mp h with h1 | h1
      · exact Or.inl h1
      · exact Or.inr (List.mem_cons_of_mem _ h1)
    · rw [if_neg hk] at h
      rcases List.mem_cons.mp h with h1 | h1
      · exact Or.inr (h1 ▸ List.mem_cons_self _ _)
      · rcases ih h1 with h2 | h2
        · exact Or.inl h2
        · exact Or.inr (List.mem_cons_of_mem _ h2)

/-- Unfolding of the coverage check. -/
theorem coversKeys_iff (es : Elems) (L : List String) :
    coversKeys es L = true ↔ ∀ p ∈ es, p.1 ∈ L := by
  rw [coversKeys, List.all_eq_true]
  constructor
  · intro h p hp
    exact of_decide_eq_true (h p hp)
  · intro h p hp
    exact decide_eq_true (h p hp)

/-- Splicing a fresh key after `w` keeps the chain valid: the new walk
visits the fresh key right after `w` and then continues as before. -/
theorem isWalkFrom_splice (es : Elems) (w opID : String) (W e2 : Element)
    (L2 : List String)
    (hw : lookupElem es w = some W)
    (hop_w : opID ≠ w) (hopL2 : opID ∉ L2) (hwL2 : w ∉ L2)
    (he2 : e2.NextID = W.NextID) :
    ∀ L1 cur, w ∉ L1 → opID ∉ L1 →
      isWalkFrom es cur (L1 ++ w :: L2) = true →
      isWalkFrom (setElem (setElem es w { W with NextID := opID }) opID e2) cur
        (L1 ++ w :: opID :: L2) = true := by
  intro L1
  induction L1 with
  | nil =>
    intro cur _ _ h
    simp only [List.nil_append] at h ⊢
    rw [isWalkFrom, Bool.and_eq_true] at h
    obtain ⟨h1, h2⟩ := h
    have hcur : cur = w := by simpa using h1
    rw [hcur] at h2
    rw [hw] at h2
    have h2b : isWalkFrom es W.NextID L2 = true := h2
    rw [isWalkFrom, Bool.and_eq_true]
    constructor
    · rw [hcur]
      simp
    · rw [hcur]
      have hlookw : lookupElem (setElem (setElem es w { W with NextID := opID }) opID e2) w
          = some { W with NextID := opID } := by
        rw [lookupElem_setElem_ne _ _ _ _ (Ne.symm hop_w), lookupElem_setElem_self]
      rw [hlookw]
      show isWalkFrom _ opID (opID :: L2) = true
      rw [isWalkFrom, Bool.and_eq_true]
      refine ⟨by simp, ?_⟩
      rw [lookupElem_setElem_self]
      show isWalkFrom _ e2.NextID L2 = true
      rw [he2]
      have hcongr : ∀ k ∈ L2,
          (lookupElem (setElem (setElem es w { W with NextID := opID }) opID e2) k).map
              (fun x => x.NextID)
            = (lookupElem es k).map (fun x => x.NextID) := by
        intro k hk
        have hkw : k ≠ w := fun hh => hwL2 (hh ▸ hk)
        have hkop : k ≠ opID := fun hh => hopL2 (hh ▸ hk)
        rw [lookupElem_setElem_ne _ _ _ _ hkop, lookupElem_setElem_ne _ _ _ _ hkw]
      rw [isWalkFrom_congr _ _ _ hcongr W.NextID]
      exact h2b
  | cons k1 L1t ih =>
    intro cur hwL1 hopL1 h
    simp only [List.cons_append] at h ⊢
    rw [isWalkFrom, Bool.and_eq_true] at h
    obtain ⟨h1, h2⟩ := h
    have hcur : cur = k1 := by simpa using h1
    cases hl : lookupElem es cur with
    | none => rw [hl] at h2; simp at h2
    | some e =>
      rw [hl] at h2
      have h2b : isWalkFrom es e.NextID (L1t ++ w :: L2) = true := h2
      rw [isWalkFrom, Bool.and_eq_true]
      refine ⟨h1, ?_⟩
      have hk1w : cur ≠ w := by
        rw [hcur]
        intro hh
        exact hwL1 (hh ▸ List.mem_cons_self _ _)
      have hk1op : cur ≠ opID := by
        rw [hcur]
        intro hh
        exact hopL1 (hh ▸ List.mem_cons_self _ _)
      have hlook2 : lookupElem (setElem (setElem es w { W with NextID := opID }) opID e2) cur
          = some e := by
        rw [lookupElem_setElem_ne _ _ _ _ hk1op, lookupElem_setElem_ne _ _ _ _ hk1w, hl]
      rw [hlook2]
      show isWalkFrom _ e.NextID (L1t ++ w :: opID :: L2) = true
      exact ih e.NextID (fun hh => hwL1 (List.mem_cons_of_mem _ hh))
        (fun hh => hopL1 (List.mem_cons_of_mem _ hh)) h2b

/-- The spliced key list stays duplicate-free. -/
theorem nodup_splice (L1 L2 : List String) (w opID : String)
    (h : (L1 ++ w :: L2).Nodup) (hop : opID ∉ L1 ++ w :: L2) :
    (L1 ++ w :: opID :: L2).Nodup := by
  have hop1 : opID ∉ L1 := fun hh => hop (List.mem_append.mpr (Or.inl hh))
  have hop2 : opID ≠ w := fun hh =>
    hop (List.mem_append.mpr (Or.inr (hh ▸ List.mem_cons_self _ _)))
  have hop3 : opID ∉ L2 := fun hh =>
    hop (List.mem_append.mpr (Or.inr (List.mem_cons_of_mem _ hh)))
  obtain ⟨h1, h2, h3⟩ := List.nodup_append.mp h
  obtain ⟨h4, h5⟩ := List.nodup_cons.mp h2
  refine List.nodup_append.mpr ⟨h1, ?_, ?_⟩
  · refine List.nodup_cons.mpr ⟨?_, List.nodup_cons.mpr ⟨hop3, h5⟩⟩
    intro hh
    rcases List.mem_cons.mp hh with h6 | h6
    · exact hop2 h6.symm
    · exact h4 h6
  · intro a ha hb
    rcases List.mem_cons.mp hb with h6 | h6
    · exact h3 ha (h6 ▸ List.mem_cons_self _ _)
    rcases List.mem_cons.mp h6 with h7 | h7
    · exact hop1 (h7 ▸ ha)
    · exact h3 ha (List.mem_cons_of_mem _ h7)

/-- C9 (amended): every successful insert through the resolver of an
element with empty `NextID`, fresh nonempty identifier, preserves the
single-linked walk invariant — the chain from `CrdtFirstID` visits every
stored key exactly once and ends at the empty terminator.  (The claimed
double consistency of `PrevID` links is not preserved; see the
counterexample.) -/
theorem addToCRDT_preserves_walk
    (c : CRDT) (e : Element) (ops ops2 : List Element) (c2 : CRDT)
    (hwf : WfCRDT c) (hnext : e.NextID = "")
    (hfresh : lookupElem c.Elements e.ID = none) (hid : e.ID ≠ "")
    (h : addToCRDT e c ops = some (c2, ops2)) : WfCRDT c2 := by
  obtain ⟨L, hwalk, hnodup, hcov, hnil⟩ := hwf
  have hnotinL : e.ID ∉ L := by
    intro hmem
    have hsome := isWalkFrom_lookup_isSome c.Elements L c.CrdtFirstID hwalk e.ID hmem
    rw [hfresh] at hsome
    simp at hsome
  unfold addToCRDT at h
  split at h
  next crdt1 heq1 =>
    have hpair : c.Elements = [] ∧ crdt1 = { c with CrdtFirstID := e.ID } := by
      unfold firstCRDTEntry at heq1
      split at heq1
      next hle =>
        refine ⟨List.eq_nil_of_length_eq_zero (Nat.le_zero.mp hle), ?_⟩
        injection heq1 with h4 h5
        exact h5.symm
      next =>
        injection heq1 with h4 h5
        exact absurd h4 (by simp)
    obtain ⟨hemp, hc1⟩ := hpair
    injection h with h2
    have hc2 : c2 = (addOpAndIncrementCounter e e.ID crdt1 ops).1 :=
      (congrArg Prod.fst h2).symm
    rw [hc2, hc1]
    refine ⟨[e.ID], ?_, by simp, ?_, ?_⟩
    · simp [addOpAndIncrementCounter, hemp, setElem, isWalkFrom, lookupElem, hnext]
    · simp [addOpAndIncrementCounter, hemp, setElem, coversKeys]
    · simp [addOpAndIncrementCounter, hemp, setElem, lookupElem, hid]
  next crdt1 heq1 =>
    have hc1 : crdt1 = c := by
      unfold firstCRDTEntry at heq1
      split at heq1
      next =>
        injection heq1 with h4 h5
        exact absurd h4 (by simp)
      next =>
        injection heq1 with h4 h5
        exact h5.symm
    rw [hc1] at h
    split at h
    · exact absurd h (by simp)
    next e2 crdt2 heq2 =>
      unfold replacingFirstOp at heq2
      split at heq2
      next hinit =>
        cases hlf : lookupElem c.Elements c.CrdtFirstID with
        | none => rw [hlf] at heq2; exact absurd heq2 (by simp)
        | some firstOp =>
          rw [hlf] at heq2
          injection heq2 with h3
          injection h3 with h4 h5
          injection h5 with h6 h7
          injection h with h2
          have hc2 : c2 = (addOpAndIncrementCounter e2 e2.ID crdt2 ops).1 :=
            (congrArg Prod.fst h2).symm
          have hFinL : c.CrdtFirstID ∈ L := by
            obtain ⟨p, hp, hp1⟩ := lookupElem_some_exists_mem _ _ _ hlf
            exact hp1 ▸ (coversKeys_iff _ _).mp hcov p hp
          have hFne : c.CrdtFirstID ≠ "" := by
            intro hh
            rw [hh, hnil] at hlf
            exact absurd hlf (by simp)
          rw [hc2, ← h6, ← h7]
          refine ⟨e.ID :: L, ?_, List.nodup_cons.mpr ⟨hnotinL, hnodup⟩, ?_, ?_⟩
          · show isWalkFrom
              (setElem (setElem c.Elements c.CrdtFirstID { firstOp with PrevID := e.ID })
                ({ e with NextID := c.CrdtFirstID } : Element).ID
                { e with NextID := c.CrdtFirstID })
              e.ID (e.ID :: L) = true
            rw [isWalkFrom, Bool.and_eq_true]
            refine ⟨by simp, ?_⟩
            have hlook : lookupElem
                (setElem (setElem c.Elements c.CrdtFirstID { firstOp with PrevID := e.ID })
                  ({ e with NextID := c.CrdtFirstID } : Element).ID
                  { e with NextID := c.CrdtFirstID })
                e.ID = some { e with NextID := c.CrdtFirstID } :=
              lookupElem_setElem_self _ _ _
            rw [hlook]
            show isWalkFrom _ c.CrdtFirstID L = true
            have hcongr : ∀ k ∈ L,
                (lookupElem (setElem (setElem c.Elements c.CrdtFirstID
                    { firstOp with PrevID := e.ID })
                    ({ e with NextID := c.CrdtFirstID } : Element).ID
                    { e with NextID := c.CrdtFirstID }) k).map (fun x => x.NextID)
                  = (lookupElem c.Elements k).map (fun x => x.NextID) := by
              intro k hk
              have hkid : k ≠ ({ e with NextID := c.CrdtFirstID } : Element).ID :=
                fun hh => hnotinL (hh ▸ hk)
              rw [lookupElem_setElem_ne _ _ _ _ hkid]
              by_cases hkF : k = c.CrdtFirstID
              · rw [hkF, lookupElem_setElem_self, hlf]
                rfl
              · rw [lookupElem_setElem_ne _ _ _ _ hkF]
            rw [isWalkFrom_congr _ _ _ hcongr c.CrdtFirstID]
            exact hwalk
          · show coversKeys
              (setElem (setElem c.Elements c.CrdtFirstID { firstOp with PrevID := e.ID })
                ({ e with NextID := c.CrdtFirstID } : Element).ID
                { e with NextID := c.CrdtFirstID }) (e.ID :: L) = true
            rw [coversKeys_iff]
            intro p hp
            rcases mem_setElem _ _ _ _ hp with h8 | h8
            · rw [h8]
              exact List.mem_cons_self _ _
            rcases mem_setElem _ _ _ _ h8 with h9 | h9
            · rw [h9]
              exact List.mem_cons_of_mem _ hFinL
            · exact List.mem_cons_of_mem _ ((coversKeys_iff _ _).mp hcov p h9)
          · show lookupElem
              (setElem (setElem c.Elements c.CrdtFirstID { firstOp with PrevID := e.ID })
                ({ e with NextID := c.CrdtFirstID } : Element).ID
                { e with NextID := c.CrdtFirstID }) "" = none
            rw [lookupElem_setElem_ne _ _ _ _ (fun hh => hid hh.symm),
              lookupElem_setElem_ne _ _ _ _ (Ne.symm hFne)]
            exact hnil
      next =>
        injection heq2 with h3
        injection h3 with h4 h5
        exact absurd h4 (by simp)
    next e2 crdt2 heq2 =>
      have hpair : e2 = e ∧ crdt2 = c := by
        unfold replacingFirstOp at heq2
        split at heq2
        next =>
          cases hlf : lookupElem c.Elements c.CrdtFirstID with
          | none => rw [hlf] at heq2; exact absurd heq2 (by simp)
          | some firstOp =>
            rw [hlf] at heq2
            injection heq2 with h3
            injection h3 with h4 h5
            exact absurd h4 (by simp)
        next =>
          injection heq2 with h3
          injection h3 with h4 h5
          injection h5 with h6 h7
          exact ⟨h6.symm, h7.symm⟩
      obtain ⟨he2, hcr2⟩ := hpair
      rw [he2, hcr2] at h
      split at h
      · exact absurd h (by simp)
      next e3 crdt3 heq3 =>
        unfold normalInsert at heq3
        split at heq3
        · exact absurd heq3 (by simp)
        next newPrevID hspc =>
          cases hlp : lookupElem c.Elements newPrevID with
          | none => rw [hlp] at heq3; exact absurd heq3 (by simp)
          | some prevOp =>
            rw [hlp] at heq3
            injection heq3 with h3
            injection h3 with h4 h5
            injection h with h2
            have hc2 : c2 = (addOpAndIncrementCounter e3 e3.ID crdt3 ops).1 :=
              (congrArg Prod.fst h2).symm
            have hwinL : newPrevID ∈ L := by
              obtain ⟨p, hp, hp1⟩ := lookupElem_some_exists_mem _ _ _ hlp
              exact hp1 ▸ (coversKeys_iff _ _).mp hcov p hp
            obtain ⟨L1, L2, hLsplit⟩ := List.append_of_mem hwinL
            obtain ⟨hn1, hn2, hn3⟩ := List.nodup_append.mp (hLsplit ▸ hnodup)
            obtain ⟨hn4, hn5⟩ := List.nodup_cons.mp hn2
            have hwL1 : newPrevID ∉ L1 := fun hh => hn3 hh (List.mem_cons_self _ _)
            have hopL1 : e.ID ∉ L1 := fun hh =>
              hnotinL (hLsplit ▸ List.mem_append.mpr (Or.inl hh))
            have hopL2 : e.ID ∉ L2 := fun hh =>
              hnotinL (hLsplit ▸ List.mem_append.mpr (Or.inr (List.mem_cons_of_mem _ hh)))
            have hop_w : e.ID ≠ newPrevID := fun hh =>
              hnotinL (hLsplit ▸ List.mem_append.mpr (Or.inr (hh ▸ List.mem_cons_self _ _)))
            have hwne : newPrevID ≠ "" := by
              intro hh
              rw [hh, hnil] at hlp
              exact absurd hlp (by simp)
            rw [hc2, ← h4, ← h5]
            refine ⟨L1 ++ newPrevID :: e.ID :: L2, ?_, ?_, ?_, ?_⟩
            · show isWalkFrom
                (setElem (setElem c.Elements newPrevID { prevOp with NextID := e.ID })
                  ({ e with NextID := prevOp.NextID } : Element).ID
                  { e with NextID := prevOp.NextID })
                c.CrdtFirstID (L1 ++ newPrevID :: e.ID :: L2) = true
              exact isWalkFrom_splice c.Elements newPrevID e.ID prevOp
                { e with NextID := prevOp.NextID } L2 hlp hop_w hopL2 hn4 rfl
                L1 c.CrdtFirstID hwL1 hopL1 (hLsplit ▸ hwalk)
            · exact nodup_splice L1 L2 newPrevID e.ID (hLsplit ▸ hnodup)
                (hLsplit ▸ hnotinL)
            · show coversKeys
                (setElem (setElem c.Elements newPrevID { prevOp with NextID := e.ID })
                  ({ e with NextID := prevOp.NextID } : Element).ID
                  { e with NextID := prevOp.NextID })
                (L1 ++ newPrevID :: e.ID :: L2) = true
              rw [coversKeys_iff]
              intro p hp
              rcases mem_setElem _ _ _ _ hp with h8 | h8
              · rw [h8]
                exact List.mem_append.mpr
                  (Or.inr (List.mem_cons_of_mem _ (List.mem_cons_self _ _)))
              rcases mem_setElem _ _ _ _ h8 with h9 | h9
              · rw [h9]
                exact List.mem_append.mpr (Or.inr (List.mem_cons_self _ _))
              · have hmem := (coversKeys_iff _ _).mp hcov p h9
                rw [hLsplit] at hmem
                rcases List.mem_append.mp hmem with hA2 | hA2
                · exact List.mem_append.mpr (Or.inl hA2)
                rcases List.mem_cons.mp hA2 with hB | hB
                · exact List.mem_append.mpr (Or.inr (hB ▸ List.mem_cons_self _ _))
                · exact List.mem_append.mpr
                    (Or.inr (List.mem_cons_of_mem _ (List.mem_cons_of_mem _ hB)))
            · show lookupElem
                (setElem (setElem c.Elements newPrevID { prevOp with NextID := e.ID })
                  ({ e with NextID := prevOp.NextID } : Element).ID
                  { e with NextID := prevOp.NextID }) "" = none
              rw [lookupElem_setElem_ne _ _ _ _ (fun hh => hid hh.symm),
                lookupElem_setElem_ne _ _ _ _ (Ne.symm hwne)]
              exact hnil

/-- Witness for `addToCRDT_preserves_walk`: inserting element 11 into the
empty document preserves the walk invariant. -/
theorem addToCRDT_preserves_walk_witness :
    WfCRDT ⟨[("11", eA)], "11", 2⟩ :=
  addToCRDT_preserves_walk d0 eA [] [eA] ⟨[("11", eA)], "11", 2⟩
    ⟨[], by decide⟩ (by decide) (by decide) (by decide) (by decide)

end CrdtWorker
